import Mathlib

/-!
Shallow embedding of `visualise.py` (LD06 LIDAR point-cloud visualiser).

Modelling choices:
* Python floats are modelled as exact rationals (`ℚ`); Python ints as `ℤ`.
* The insertion-ordered Python `dict` `self.points` is an association list
  `List (ℚ × (ℤ × ℤ))` in which assignment to an existing key updates the
  entry in place (preserving its position) and assignment to a fresh key
  appends, exactly as CPython dicts behave.
* `math.radians x = x * π / 180`; since `π` is a fixed constant we represent
  a radian value exactly by its rational coefficient of `π` (that is,
  `radians d` returns `d / 180`, to be read as `(d / 180) · π`), keeping the
  snapshot computable.  A theorem below ties this representation to
  `Real.pi`.
* Python's `int(...)` is modelled in full for decimal literals: optional
  surrounding whitespace, optional sign, digits with single underscore
  separators between digits.  `float(...)` is modelled in two layers: the
  rational-valued `pyFloat` covers exactly the literals whose value is a
  finite double (sign, digits with underscores, optional fraction and
  decimal exponent), and `pyFloatF` is the full model, adding the
  case-insensitive keywords `inf`/`infinity`/`nan` and the overflow of
  large finite literals (such as `1e400`) to an infinity.  On an infinite
  angle the program's `round(angle * 2)` raises OverflowError, which the
  `except ValueError` at line 70 does not catch: `processLineF` and
  `read_pointsF` model this escaping exception, and a refinement theorem
  shows the simplified no-exception pipeline used by the other claims
  agrees with the faithful one on every run that does not raise.
-/

/-- Digit list to natural number, most significant first. -/
def digitsToNat (ds : List Char) : ℕ :=
  ds.foldl (fun n c => 10 * n + (c.toNat - 48)) 0

/-- Python whitespace for `str.strip` (ASCII subset). -/
def pyIsSpace (c : Char) : Bool :=
  c = ' ' || c = '\t' || c = '\n' || c = '\r' || c = '\x0b' || c = '\x0c'

/-- Python `str.strip()`: drop leading and trailing whitespace. -/
def pyStrip (cs : List Char) : List Char :=
  ((cs.dropWhile pyIsSpace).reverse.dropWhile pyIsSpace).reverse

/-- Python `str.split(',')`: split on every comma, keeping empty fields. -/
def splitFields : List Char → List (List Char)
  | [] => [[]]
  | c :: rest =>
    let r := splitFields rest
    if c = ',' then [] :: r
    else
      match r with
      | f :: fs => (c :: f) :: fs
      | [] => [[c]]

/-- Python `str.startswith("LD06")`. -/
def startsLD06 : List Char → Bool
  | 'L' :: 'D' :: '0' :: '6' :: _ => true
  | _ => false

/-- Two adjacent underscores somewhere in the list. -/
def hasDoubleSep : List Char → Bool
  | '_' :: '_' :: _ => true
  | _ :: rest => hasDoubleSep rest
  | [] => false

/-- Validate one digit group the way Python numeric literals do (PEP 515):
only digits and underscores, no leading, trailing or doubled underscore.
Returns the digits with the separators removed; an empty group is valid
and stays empty. -/
def digitGroup (cs : List Char) : Option (List Char) :=
  if cs.all (fun c => c.isDigit || c = '_') && cs.head? != some '_' &&
      cs.getLast? != some '_' && !hasDoubleSep cs then
    some (cs.filter fun c => c ≠ '_')
  else none

/-- Python `int(s)` on a string: strip whitespace, optional sign, decimal
digits with single underscore separators between digits.  Returns `none`
where Python raises `ValueError`. -/
def pyInt (s : List Char) : Option ℤ :=
  let cs := pyStrip s
  let signed : Bool × List Char :=
    match cs with
    | '-' :: rest => (true, rest)
    | '+' :: rest => (false, rest)
    | _ => (false, cs)
  let neg := signed.1
  match digitGroup signed.2 with
  | some ds =>
    if ds ≠ [] then
      some (if neg then -(digitsToNat ds : ℤ) else (digitsToNat ds : ℤ))
    else none
  | none => none

/-- Python `float(s)` on a string, restricted to literals with a finite
value: strip whitespace, optional sign, decimal digits with underscore
separators, optional fractional part and optional decimal exponent, the
value taken exactly.  Returns `none` where Python raises `ValueError`.
The full model `pyFloatF` below adds the `inf`/`infinity`/`nan` keywords
and the overflow of large literals to an infinity. -/
def pyFloat (s : List Char) : Option ℚ :=
  let cs := pyStrip s
  let signed : Bool × List Char :=
    match cs with
    | '-' :: rest => (true, rest)
    | '+' :: rest => (false, rest)
    | _ => (false, cs)
  let neg := signed.1
  let cs1 := signed.2
  let ipSplit := cs1.span fun c => c.isDigit || c = '_'
  match digitGroup ipSplit.1 with
  | none => none
  | some ip =>
    let fpSplit : List Char × List Char :=
      match ipSplit.2 with
      | '.' :: rest => rest.span fun c => c.isDigit || c = '_'
      | other => ([], other)
    match digitGroup fpSplit.1 with
    | none => none
    | some fp =>
      let rest := fpSplit.2
      if ip = [] ∧ fp = [] then none
      else
        let mantissa : ℚ := (digitsToNat ip : ℚ) + (digitsToNat fp : ℚ) / ((10 : ℚ) ^ fp.length)
        let value : ℚ := if neg then -mantissa else mantissa
        match rest with
        | [] => some value
        | e :: tail =>
          if e = 'e' ∨ e = 'E' then
            let esigned : Bool × List Char :=
              match tail with
              | '-' :: r => (true, r)
              | '+' :: r => (false, r)
              | _ => (false, tail)
            let eneg := esigned.1
            let edSplit := esigned.2.span fun c => c.isDigit || c = '_'
            match digitGroup edSplit.1 with
            | none => none
            | some ed =>
              if ed = [] ∨ edSplit.2 ≠ [] then none
              else
                let ex : ℤ := if eneg then -(digitsToNat ed : ℤ) else (digitsToNat ed : ℤ)
                some (value * (10 : ℚ) ^ ex)
          else none

/-- Python exceptions relevant to the per-record path of `read_points`. -/
inductive PyError where
  | valueError
  | overflowError
deriving DecidableEq

/-- Result of a successful Python `float()` call: a finite double
(modelled by its exact rational value), an infinity, or nan. -/
inductive PyFloat where
  | finite (q : ℚ)
  | inf (neg : Bool)
  | nan
deriving DecidableEq

/-- Smallest magnitude at which IEEE-754 round-to-nearest-even overflows a
binary64 to infinity: 2^1024 - 2^970. -/
def overflowBound : ℚ := ((2 ^ 1024 - 2 ^ 970 : ℕ) : ℚ)

/-- Keyword arm of Python `float(s)`: the case-insensitive words
`inf`/`infinity`/`nan` with an optional sign, after stripping. -/
def pyFloatKeyword (s : List Char) : Option PyFloat :=
  let cs := pyStrip s
  let signed : Bool × List Char :=
    match cs with
    | '-' :: rest => (true, rest)
    | '+' :: rest => (false, rest)
    | _ => (false, cs)
  let body := signed.2.map Char.toLower
  if body = ['i', 'n', 'f'] ∨ body = ['i', 'n', 'f', 'i', 'n', 'i', 't', 'y'] then
    some (PyFloat.inf signed.1)
  else if body = ['n', 'a', 'n'] then some PyFloat.nan
  else none

/-- Python `float(s)` in full: a finite decimal literal (via `pyFloat`)
overflows to a signed infinity at `overflowBound`, and the keywords of
`pyFloatKeyword` are accepted. -/
def pyFloatF (s : List Char) : Option PyFloat :=
  match pyFloat s with
  | some q =>
    some (if overflowBound ≤ |q| then PyFloat.inf (decide (q < 0)) else PyFloat.finite q)
  | none => pyFloatKeyword s

/-- Python 3 `round` on a rational: round half to even (banker's rounding). -/
def roundHalfEven (q : ℚ) : ℤ :=
  let f := ⌊q⌋
  let r := q - (f : ℚ)
  if r < 1 / 2 then f
  else if 1 / 2 < r then f + 1
  else if f % 2 = 0 then f else f + 1

/-- Angle quantisation of `visualise.py` line 64: `angle_bin = round(angle * 2) / 2`. -/
def binOf (angle : ℚ) : ℚ :=
  (roundHalfEven (angle * 2) : ℚ) / 2

/-- `round(angle * 2)` of line 64 under Python float semantics: doubling a
finite value overflows a binary64 to infinity at `overflowBound`;
`round` of an infinity raises OverflowError, `round` of nan raises
ValueError, and a finite value rounds half to even. -/
def pyRound2 : PyFloat → Except PyError ℤ
  | PyFloat.finite q =>
    if overflowBound ≤ |q * 2| then Except.error PyError.overflowError
    else Except.ok (roundHalfEven (q * 2))
  | PyFloat.inf _ => Except.error PyError.overflowError
  | PyFloat.nan => Except.error PyError.valueError

/-- CPython dict assignment `d[k] = v` on the insertion-ordered association
list: update in place if the key exists, else append. -/
def insertPoint (pts : List (ℚ × (ℤ × ℤ))) (k : ℚ) (p : ℤ × ℤ) : List (ℚ × (ℤ × ℤ)) :=
  match pts with
  | [] => [(k, p)]
  | (k0, p0) :: rest => if k0 = k then (k, p) :: rest else (k0, p0) :: insertPoint rest k p

/-- Dict lookup `d.get(k)` on the association list. -/
def lookupPoint (pts : List (ℚ × (ℤ × ℤ))) (k : ℚ) : Option (ℤ × ℤ) :=
  match pts with
  | [] => none
  | (k0, p0) :: rest => if k0 = k then some p0 else lookupPoint rest k

/-- State of a `LidarVisualiser` object: `self.ser` (whether a serial
connection is established), `self.points`, `self.point_count`,
`self.max_distance`. -/
structure LidarVisualiser where
  ser : Bool
  points : List (ℚ × (ℤ × ℤ))
  point_count : ℕ
  max_distance : ℤ
deriving DecidableEq

/-- State after `__init__` and a successful `connect()`: empty point map,
zero lifetime counter, `max_distance = 8000` mm. -/
def initVis : LidarVisualiser :=
  { ser := true, points := [], point_count := 0, max_distance := 8000 }

/-- Lines 50-61 of `read_points`: strip the decoded line, drop empty lines
and banner lines starting with "LD06", split on a comma, require exactly 3
fields, and convert them with `float`/`int`.  Returns the raw parsed
`(angle, distance, confidence)` triple, or `none` on rejection. -/
def parseLine (rawLine : String) : Option (ℚ × ℤ × ℤ) :=
  if (pyStrip rawLine.toList).isEmpty || startsLD06 (pyStrip rawLine.toList) then none
  else if (splitFields (pyStrip rawLine.toList)).length ≠ 3 then none
  else
    match pyFloat ((splitFields (pyStrip rawLine.toList)).getD 0 []),
      pyInt ((splitFields (pyStrip rawLine.toList)).getD 1 []),
      pyInt ((splitFields (pyStrip rawLine.toList)).getD 2 []) with
    | some angle, some distance, some confidence => some (angle, distance, confidence)
    | _, _, _ => none

/-- Lines 63-68 of `read_points`: quantise the angle to a 0.5° bin and, if
the distance is within `[0, max_distance]`, overwrite the bin and bump the
lifetime counter; otherwise leave the state unchanged. -/
def ingest (v : LidarVisualiser) (angle : ℚ) (distance confidence : ℤ) : LidarVisualiser :=
  let angle_bin := binOf angle
  if 0 ≤ distance ∧ distance ≤ v.max_distance then
    { v with points := insertPoint v.points angle_bin (distance, confidence),
             point_count := v.point_count + 1 }
  else v

/-- One iteration of the `while self.ser.in_waiting` loop body for a single
decoded line.  Total: a Python `ValueError` from the field conversions is
caught by the inner `try`/`except` and leaves the state unchanged. -/
def processLine (v : LidarVisualiser) (rawLine : String) : LidarVisualiser :=
  match parseLine rawLine with
  | some (angle, distance, confidence) => ingest v angle distance confidence
  | none => v

/-- `read_points`, given the list of decoded lines the serial buffer yields
this pass.  Returns immediately when no serial connection is set. -/
def read_points (v : LidarVisualiser) (lines : List String) : LidarVisualiser :=
  if v.ser then lines.foldl processLine v else v

/-- Lines 50-61 with the full float model: the raw parsed triple, or
`none` when a field conversion raises ValueError (caught at line 70). -/
def parseLineF (rawLine : String) : Option (PyFloat × ℤ × ℤ) :=
  if (pyStrip rawLine.toList).isEmpty || startsLD06 (pyStrip rawLine.toList) then none
  else if (splitFields (pyStrip rawLine.toList)).length ≠ 3 then none
  else
    match pyFloatF ((splitFields (pyStrip rawLine.toList)).getD 0 []),
      pyInt ((splitFields (pyStrip rawLine.toList)).getD 1 []),
      pyInt ((splitFields (pyStrip rawLine.toList)).getD 2 []) with
    | some angle, some distance, some confidence => some (angle, distance, confidence)
    | _, _, _ => none

/-- One loop iteration with exception semantics: a ValueError from the
field conversions or from `round` of nan is caught by the
`except ValueError` at line 70 (silent continue), while the OverflowError
from `round` of an infinity matches no except clause and escapes. -/
def processLineF (v : LidarVisualiser) (rawLine : String) :
    Except PyError LidarVisualiser :=
  match parseLineF rawLine with
  | none => Except.ok v
  | some (angle, distance, confidence) =>
    match pyRound2 angle with
    | Except.error PyError.overflowError => Except.error PyError.overflowError
    | Except.error PyError.valueError => Except.ok v
    | Except.ok n =>
      let angle_bin : ℚ := (n : ℚ) / 2
      if 0 ≤ distance ∧ distance ≤ v.max_distance then
        Except.ok { v with points := insertPoint v.points angle_bin (distance, confidence),
                           point_count := v.point_count + 1 }
      else Except.ok v

/-- Fold step of the read pass with exception semantics: once a line has
raised, the remaining lines are not processed. -/
def stepF (acc : LidarVisualiser × Option PyError) (s : String) :
    LidarVisualiser × Option PyError :=
  match acc.2 with
  | some _ => acc
  | none =>
    match processLineF acc.1 s with
    | Except.ok w => (w, none)
    | Except.error e => (acc.1, some e)

/-- `read_points` with exception semantics: the state reached when the
pass completes or the exception escapes, together with the escaped
exception if any.  Mutations made before the raise persist on the object,
exactly as in Python. -/
def read_pointsF (v : LidarVisualiser) (lines : List String) :
    LidarVisualiser × Option PyError :=
  if v.ser then lines.foldl stepF (v, none) else (v, none)

/-- Accepted measurement a single line contributes, if any: the parsed
record of `parseLine` quantised by `binOf` and filtered by the distance
range check of lines 66-68. -/
def recordFor (maxD : ℤ) (s : String) : Option (ℚ × ℤ × ℤ) :=
  match parseLine s with
  | some (angle, distance, confidence) =>
    if 0 ≤ distance ∧ distance ≤ maxD then some (binOf angle, distance, confidence)
    else none
  | none => none

/-- Measurement stored for bin `b` by the most recent line of `lines` whose
accepted record hits bin `b` (later lines win), or `none` when no line
does. -/
def acceptedFor (maxD : ℤ) : List String → ℚ → Option (ℤ × ℤ)
  | [], _ => none
  | s :: rest, b =>
    match acceptedFor maxD rest b with
    | some p => some p
    | none =>
      match recordFor maxD s with
      | some (b0, d, c) => if b0 = b then some (d, c) else none
      | none => none

/-- The 720 legal angle bins of a full rotation: multiples of 0.5 in
the interval from 0 to 359.5. -/
def legalBins : List ℚ := (List.range 720).map fun i : ℕ => (i : ℚ) / 2

/-- Fold of `ingest` over a list of raw `(angle, distance, confidence)`
records. -/
def ingestAll (v : LidarVisualiser) (rs : List (ℚ × ℤ × ℤ)) : LidarVisualiser :=
  rs.foldl (fun w r => ingest w r.1 r.2.1 r.2.2) v

/-- Flood input for the size bound: `n` records at the integer angles
`0, 1, ..., n-1`, all with distance 100 mm and confidence 50. -/
def floodRecords (n : ℕ) : List (ℚ × ℤ × ℤ) :=
  (List.range n).map fun i => ((i : ℚ), 100, 50)

/-- Lines 168-171 of `update`: when the snapshot is non-empty and its
maximum distance exceeds the current radial limit, raise the limit to
`min(max_dist * 1.1, 8000)`; otherwise leave it unchanged. -/
def autoScale (rmax : ℚ) (distances : List ℤ) : ℚ :=
  match distances with
  | [] => rmax
  | d :: rest =>
    let max_dist : ℤ := rest.foldl max d
    if rmax < (max_dist : ℚ) then min ((max_dist : ℚ) * (11 / 10)) 8000 else rmax

/-- Radial limit after a sequence of ticks, starting from the initial
`ax.set_rlim(0, 4000)` of line 140. -/
def rlimAfter (snaps : List (List ℤ)) : ℚ :=
  snaps.foldl autoScale 4000

/-- math.radians in the coefficient-of-π representation: `radians d`
denotes the real number `(d / 180) · π`. -/
def radians (deg : ℚ) : ℚ := deg / 180

/-- `get_polar_data`: three parallel sequences built by iterating the point
map in insertion order; the empty map yields three empty sequences.  The
method does not mutate the object, so the returned state is the input
state. -/
def get_polar_data (v : LidarVisualiser) :
    (List ℚ × List ℤ × List ℤ) × LidarVisualiser :=
  if v.points.isEmpty then (([], [], []), v)
  else
    ((v.points.map fun p => radians p.1,
      v.points.map fun p => p.2.1,
      v.points.map fun p => p.2.2), v)

attribute [local semireducible] Rat.add Rat.mul Rat.inv Rat.sub Rat.ofScientific

set_option maxRecDepth 40000

theorem lookupPoint_insertPoint (pts : List (ℚ × (ℤ × ℤ))) (k k' : ℚ) (p : ℤ × ℤ) :
    lookupPoint (insertPoint pts k p) k' = if k = k' then some p else lookupPoint pts k' := by
  induction pts with
  | nil => simp [insertPoint, lookupPoint]
  | cons hd tl ih =>
    obtain ⟨k0, p0⟩ := hd
    by_cases h0 : k0 = k
    · subst h0
      simp only [insertPoint, if_pos rfl, lookupPoint]
      by_cases h1 : k0 = k' <;> simp [lookupPoint, h1]
    · have h0s : ¬ k = k0 := fun h => h0 h.symm
      simp only [insertPoint, if_neg h0, lookupPoint, ih]
      by_cases h1 : k0 = k'
      · subst h1
        simp [h0s]
      · simp [h1]

theorem keys_insertPoint (pts : List (ℚ × (ℤ × ℤ))) (k : ℚ) (p : ℤ × ℤ) :
    (insertPoint pts k p).map Prod.fst =
      if k ∈ pts.map Prod.fst then pts.map Prod.fst else pts.map Prod.fst ++ [k] := by
  induction pts with
  | nil => simp [insertPoint]
  | cons hd tl ih =>
    obtain ⟨k0, p0⟩ := hd
    by_cases h0 : k0 = k
    · subst h0
      simp [insertPoint]
    · have hne : ¬ k = k0 := fun h => h0 h.symm
      simp only [insertPoint, if_neg h0, List.map_cons, ih, List.mem_cons]
      by_cases hk : k ∈ tl.map Prod.fst
      · simp [hk, hne]
      · simp [hk, hne]

theorem nodup_keys_insertPoint (pts : List (ℚ × (ℤ × ℤ))) (k : ℚ) (p : ℤ × ℤ)
    (h : (pts.map Prod.fst).Nodup) : ((insertPoint pts k p).map Prod.fst).Nodup := by
  rw [keys_insertPoint]
  by_cases hk : k ∈ pts.map Prod.fst
  · simpa [hk]
  · simpa [hk] using List.Nodup.append h (List.nodup_singleton k) (by simpa using hk)

theorem mem_insertPoint (pts : List (ℚ × (ℤ × ℤ))) (k : ℚ) (p : ℤ × ℤ)
    (q : ℚ × (ℤ × ℤ)) : q ∈ insertPoint pts k p → (q = (k, p) ∨ q ∈ pts) := by
  induction pts with
  | nil =>
    intro hq
    simpa [insertPoint] using hq
  | cons hd tl ih =>
    obtain ⟨k0, p0⟩ := hd
    intro hq
    by_cases h0 : k0 = k
    · subst h0
      simp only [insertPoint, if_true, eq_self_iff_true, List.mem_cons] at hq
      rcases hq with h2 | h2
      · exact Or.inl h2
      · exact Or.inr (List.mem_cons_of_mem _ h2)
    · simp only [insertPoint, if_neg h0, List.mem_cons] at hq
      rcases hq with h2 | h2
      · exact Or.inr (by simp [h2])
      · rcases ih h2 with h1 | h1
        · exact Or.inl h1
        · exact Or.inr (List.mem_cons_of_mem _ h1)

theorem insertPoint_fresh (pts : List (ℚ × (ℤ × ℤ))) (k : ℚ) (p : ℤ × ℤ)
    (hk : k ∉ pts.map Prod.fst) : insertPoint pts k p = pts ++ [(k, p)] := by
  induction pts with
  | nil => simp [insertPoint]
  | cons hd tl ih =>
    obtain ⟨k0, p0⟩ := hd
    simp only [List.map_cons, List.mem_cons, not_or] at hk
    have h0 : ¬ k0 = k := fun h => hk.1 h.symm
    simp [insertPoint, if_neg h0, ih hk.2]

theorem processLine_eq_recordFor (v : LidarVisualiser) (s : String) :
    processLine v s =
      match recordFor v.max_distance s with
      | some (b, d, c) =>
        { v with points := insertPoint v.points b (d, c), point_count := v.point_count + 1 }
      | none => v := by
  unfold processLine recordFor ingest
  cases h : parseLine s with
  | none => rfl
  | some t =>
    obtain ⟨a, d, c⟩ := t
    by_cases hd : 0 ≤ d ∧ d ≤ v.max_distance
    · simp [hd]
    · simp [hd]

theorem max_distance_processLine (v : LidarVisualiser) (s : String) :
    (processLine v s).max_distance = v.max_distance := by
  rw [processLine_eq_recordFor]
  cases h : recordFor v.max_distance s with
  | none => rfl
  | some t =>
    obtain ⟨b, d, c⟩ := t
    rfl

theorem max_distance_foldl (lines : List String) :
    ∀ v : LidarVisualiser, (lines.foldl processLine v).max_distance = v.max_distance := by
  induction lines with
  | nil => intro v; rfl
  | cons s rest ih =>
    intro v
    rw [List.foldl_cons, ih, max_distance_processLine]

theorem lookup_foldl (lines : List String) :
    ∀ (v : LidarVisualiser) (b : ℚ),
      lookupPoint ((lines.foldl processLine v).points) b =
        match acceptedFor v.max_distance lines b with
        | some p => some p
        | none => lookupPoint v.points b := by
  induction lines with
  | nil => intro v b; rfl
  | cons s rest ih =>
    intro v b
    rw [List.foldl_cons]
    have hmd : (processLine v s).max_distance = v.max_distance := max_distance_processLine v s
    have h2 := ih (processLine v s) b
    rw [hmd] at h2
    rw [h2, processLine_eq_recordFor]
    simp only [acceptedFor]
    cases ha : acceptedFor v.max_distance rest b with
    | some p => simp
    | none =>
      cases hr : recordFor v.max_distance s with
      | none => simp
      | some t =>
        obtain ⟨b0, d, c⟩ := t
        simp only [lookupPoint_insertPoint]
        by_cases hb : b0 = b
        · simp [hb]
        · simp [hb]

theorem nodup_keys_foldl (lines : List String) :
    ∀ v : LidarVisualiser, (v.points.map Prod.fst).Nodup →
      (((lines.foldl processLine v).points).map Prod.fst).Nodup := by
  induction lines with
  | nil => intro v h; exact h
  | cons s rest ih =>
    intro v h
    rw [List.foldl_cons]
    refine ih _ ?_
    rw [processLine_eq_recordFor]
    cases hr : recordFor v.max_distance s with
    | none => exact h
    | some t =>
      obtain ⟨b0, d, c⟩ := t
      exact nodup_keys_insertPoint _ _ _ h

theorem points_invariant (P : ℚ × (ℤ × ℤ) → Prop) (lines : List String) :
    ∀ v : LidarVisualiser, (∀ q ∈ v.points, P q) →
      (∀ s ∈ lines, ∀ b d c, recordFor v.max_distance s = some (b, d, c) → P (b, (d, c))) →
      ∀ q ∈ (lines.foldl processLine v).points, P q := by
  induction lines with
  | nil => intro v h _ q hq; exact h q hq
  | cons s rest ih =>
    intro v h hrec q hq
    rw [List.foldl_cons] at hq
    refine ih (processLine v s) ?_ ?_ q hq
    · intro r hr
      rw [processLine_eq_recordFor] at hr
      cases hx : recordFor v.max_distance s with
      | none =>
        rw [hx] at hr
        exact h r hr
      | some t =>
        obtain ⟨b0, d, c⟩ := t
        rw [hx] at hr
        rcases mem_insertPoint _ _ _ _ hr with h1 | h1
        · subst h1
          exact hrec s (by simp) b0 d c hx
        · exact h r h1
    · intro s2 hs2 b d c hrec2
      rw [max_distance_processLine] at hrec2
      exact hrec s2 (List.mem_cons_of_mem _ hs2) b d c hrec2

theorem recordFor_shape (maxD : ℤ) (s : String) (b : ℚ) (d c : ℤ)
    (h : recordFor maxD s = some (b, d, c)) :
    (∃ a : ℚ, b = binOf a) ∧ 0 ≤ d ∧ d ≤ maxD := by
  cases hp : parseLine s with
  | none =>
    simp only [recordFor, hp] at h
    exact Option.noConfusion h
  | some t =>
    obtain ⟨a, d0, c0⟩ := t
    simp only [recordFor, hp] at h
    by_cases hd : 0 ≤ d0 ∧ d0 ≤ maxD
    · rw [if_pos hd] at h
      simp only [Option.some.injEq, Prod.mk.injEq] at h
      obtain ⟨hb, hd2, hc2⟩ := h
      subst hb
      subst hd2
      exact ⟨⟨a, rfl⟩, hd.1, hd.2⟩
    · rw [if_neg hd] at h
      cases h

theorem roundHalfEven_intCast (n : ℤ) : roundHalfEven (n : ℚ) = n := by
  unfold roundHalfEven
  rw [Int.floor_intCast]
  norm_num

theorem binOf_natCast (i : ℕ) : binOf (i : ℚ) = (i : ℚ) := by
  unfold binOf
  have h : ((i : ℚ) * 2) = (((2 * i : ℕ) : ℤ) : ℚ) := by push_cast; ring
  rw [h, roundHalfEven_intCast]
  push_cast
  ring

theorem ingestAll_flood (n : ℕ) :
    ingestAll initVis (floodRecords n) =
      { ser := true, points := (List.range n).map (fun i : ℕ => ((i : ℚ), (100, 50))),
        point_count := n, max_distance := 8000 } := by
  induction n with
  | zero => rfl
  | succ m ih =>
    have hr : floodRecords (m + 1) = floodRecords m ++ [((m : ℚ), 100, 50)] := by
      simp [floodRecords, List.range_succ]
    unfold ingestAll at ih ⊢
    rw [hr, List.foldl_append, ih]
    simp only [List.foldl_cons, List.foldl_nil]
    unfold ingest
    rw [if_pos (by norm_num), binOf_natCast, insertPoint_fresh]
    · simp [List.range_succ]
    · intro hmem
      obtain ⟨q, hq, hqe⟩ := List.mem_map.mp hmem
      obtain ⟨i, hi, rfl⟩ := List.mem_map.mp hq
      have hqe2 : (i : ℚ) = (m : ℚ) := hqe
      have him : i = m := Nat.cast_inj.mp hqe2
      rw [him] at hi
      exact absurd (List.mem_range.mp hi) (lt_irrefl m)

theorem foldl_max_mem (rest : List ℤ) : ∀ d : ℤ, rest.foldl max d ∈ d :: rest := by
  induction rest with
  | nil => intro d; simp
  | cons e t ih =>
    intro d
    rw [List.foldl_cons]
    rcases List.mem_cons.mp (ih (max d e)) with h | h
    · rw [List.mem_cons, List.mem_cons, h]
      rcases max_choice d e with h2 | h2
      · exact Or.inl h2
      · exact Or.inr (Or.inl h2)
    · exact List.mem_cons_of_mem _ (List.mem_cons_of_mem _ h)

theorem foldl_max_ub (rest : List ℤ) : ∀ d x : ℤ, x ∈ d :: rest → x ≤ rest.foldl max d := by
  induction rest with
  | nil =>
    intro d x hx
    simp at hx
    simp [hx]
  | cons e t ih =>
    intro d x hx
    rw [List.foldl_cons]
    have hm : max d e ≤ t.foldl max (max d e) := ih (max d e) (max d e) (List.mem_cons_self _ _)
    rcases List.mem_cons.mp hx with h | h
    · subst h
      exact le_trans (le_max_left _ e) hm
    · rcases List.mem_cons.mp h with h1 | h1
      · subst h1
        exact le_trans (le_max_right d _) hm
      · exact ih (max d e) x (List.mem_cons_of_mem _ h1)

theorem autoScale_le_8000 (r : ℚ) (ds : List ℤ) (hr : r ≤ 8000) : autoScale r ds ≤ 8000 := by
  cases ds with
  | nil => exact hr
  | cons d t =>
    simp only [autoScale]
    split_ifs with h
    · exact min_le_right _ _
    · exact hr

theorem le_autoScale (r : ℚ) (ds : List ℤ) (hr : r ≤ 8000) (hr0 : 0 ≤ r) :
    r ≤ autoScale r ds := by
  cases ds with
  | nil => exact le_refl r
  | cons d t =>
    simp only [autoScale]
    split_ifs with h
    · have hmq : (0 : ℚ) ≤ ((t.foldl max d : ℤ) : ℚ) := le_trans hr0 (le_of_lt h)
      refine le_min (le_trans (le_of_lt h) ?_) hr
      nlinarith
    · exact le_refl r

theorem autoScale_nonneg (r : ℚ) (ds : List ℤ) (hr0 : 0 ≤ r) : 0 ≤ autoScale r ds := by
  cases ds with
  | nil => exact hr0
  | cons d t =>
    simp only [autoScale]
    split_ifs with h
    · have hmq : (0 : ℚ) ≤ ((t.foldl max d : ℤ) : ℚ) := le_trans hr0 (le_of_lt h)
      exact le_min (by nlinarith) (by norm_num)
    · exact hr0

theorem rlimAfter_nonneg (snaps : List (List ℤ)) : 0 ≤ rlimAfter snaps := by
  suffices h : ∀ (l : List (List ℤ)) (r : ℚ), 0 ≤ r → 0 ≤ l.foldl autoScale r by
    exact h snaps 4000 (by norm_num)
  intro l
  induction l with
  | nil => intro r hr; exact hr
  | cons ds t ih =>
    intro r hr
    rw [List.foldl_cons]
    exact ih _ (autoScale_nonneg r ds hr)

theorem rlimAfter_le_8000 (snaps : List (List ℤ)) : rlimAfter snaps ≤ 8000 := by
  suffices h : ∀ (l : List (List ℤ)) (r : ℚ), r ≤ 8000 → l.foldl autoScale r ≤ 8000 by
    exact h snaps 4000 (by norm_num)
  intro l
  induction l with
  | nil => intro r hr; exact hr
  | cons ds t ih =>
    intro r hr
    rw [List.foldl_cons]
    exact ih _ (autoScale_le_8000 r ds hr)

theorem pyFloatKeyword_cases (s : List Char) :
    pyFloatKeyword s = none ∨ (∃ b, pyFloatKeyword s = some (PyFloat.inf b)) ∨
      pyFloatKeyword s = some PyFloat.nan := by
  simp only [pyFloatKeyword]
  split_ifs
  · exact Or.inr (Or.inl ⟨_, rfl⟩)
  · exact Or.inr (Or.inr rfl)
  · exact Or.inl rfl

theorem pyFloatF_finite (s : List Char) (q : ℚ)
    (h : pyFloatF s = some (PyFloat.finite q)) : pyFloat s = some q := by
  unfold pyFloatF at h
  cases hp : pyFloat s with
  | some q0 =>
    rw [hp] at h
    by_cases hb : overflowBound ≤ |q0|
    · simp [hb] at h
    · simp only [if_neg hb, Option.some.injEq, PyFloat.finite.injEq] at h
      rw [h]
  | none =>
    rw [hp] at h
    rcases pyFloatKeyword_cases s with hk | ⟨b, hk⟩ | hk <;> rw [hk] at h <;> simp at h

theorem pyFloatF_nan (s : List Char) (h : pyFloatF s = some PyFloat.nan) :
    pyFloat s = none := by
  unfold pyFloatF at h
  cases hp : pyFloat s with
  | some q0 =>
    rw [hp] at h
    by_cases hb : overflowBound ≤ |q0| <;> simp [hb] at h
  | none => rfl

theorem pyFloatF_none (s : List Char) (h : pyFloatF s = none) : pyFloat s = none := by
  unfold pyFloatF at h
  cases hp : pyFloat s with
  | some q0 =>
    rw [hp] at h
    exact absurd h (by simp)
  | none => rfl

theorem parseLineF_fields (s : String) (a : PyFloat) (d c : ℤ)
    (h : parseLineF s = some (a, d, c)) :
    ¬ ((pyStrip s.toList).isEmpty || startsLD06 (pyStrip s.toList)) = true ∧
    ¬ (splitFields (pyStrip s.toList)).length ≠ 3 ∧
    pyFloatF ((splitFields (pyStrip s.toList)).getD 0 []) = some a ∧
    pyInt ((splitFields (pyStrip s.toList)).getD 1 []) = some d ∧
    pyInt ((splitFields (pyStrip s.toList)).getD 2 []) = some c := by
  unfold parseLineF at h
  by_cases hc : ((pyStrip s.toList).isEmpty || startsLD06 (pyStrip s.toList)) = true
  · rw [if_pos hc] at h
    exact Option.noConfusion h
  · rw [if_neg hc] at h
    by_cases hl : (splitFields (pyStrip s.toList)).length ≠ 3
    · rw [if_pos hl] at h
      exact Option.noConfusion h
    · rw [if_neg hl] at h
      refine ⟨hc, hl, ?_⟩
      cases h1 : pyFloatF ((splitFields (pyStrip s.toList)).getD 0 []) with
      | none =>
        rw [h1] at h
        exact Option.noConfusion h
      | some a0 =>
        rw [h1] at h
        cases h2 : pyInt ((splitFields (pyStrip s.toList)).getD 1 []) with
        | none =>
          rw [h2] at h
          exact Option.noConfusion h
        | some d0 =>
          rw [h2] at h
          cases h3 : pyInt ((splitFields (pyStrip s.toList)).getD 2 []) with
          | none =>
            rw [h3] at h
            exact Option.noConfusion h
          | some c0 =>
            rw [h3] at h
            simp only [Option.some.injEq, Prod.mk.injEq] at h
            obtain ⟨ha, hd, hcc⟩ := h
            subst ha
            subst hd
            subst hcc
            exact ⟨rfl, rfl, rfl⟩

theorem parseLine_none_of_parseLineF_none (s : String)
    (h : parseLineF s = none) : parseLine s = none := by
  unfold parseLineF at h
  unfold parseLine
  by_cases hc : ((pyStrip s.toList).isEmpty || startsLD06 (pyStrip s.toList)) = true
  · rw [if_pos hc]
  · rw [if_neg hc] at h ⊢
    by_cases hl : (splitFields (pyStrip s.toList)).length ≠ 3
    · rw [if_pos hl]
    · rw [if_neg hl] at h ⊢
      cases h1 : pyFloatF ((splitFields (pyStrip s.toList)).getD 0 []) with
      | none =>
        rw [pyFloatF_none _ h1]
      | some a =>
        rw [h1] at h
        cases h2 : pyInt ((splitFields (pyStrip s.toList)).getD 1 []) with
        | none =>
          cases pyFloat ((splitFields (pyStrip s.toList)).getD 0 []) <;> rfl
        | some d =>
          rw [h2] at h
          cases h3 : pyInt ((splitFields (pyStrip s.toList)).getD 2 []) with
          | none =>
            cases pyFloat ((splitFields (pyStrip s.toList)).getD 0 []) <;> rfl
          | some c =>
            rw [h3] at h
            exact Option.noConfusion h

theorem parseLine_eval (s : String) (q : ℚ) (d c : ℤ)
    (h1 : ¬ ((pyStrip s.toList).isEmpty || startsLD06 (pyStrip s.toList)) = true)
    (h2 : ¬ (splitFields (pyStrip s.toList)).length ≠ 3)
    (h3 : pyFloat ((splitFields (pyStrip s.toList)).getD 0 []) = some q)
    (h4 : pyInt ((splitFields (pyStrip s.toList)).getD 1 []) = some d)
    (h5 : pyInt ((splitFields (pyStrip s.toList)).getD 2 []) = some c) :
    parseLine s = some (q, d, c) := by
  unfold parseLine
  rw [if_neg h1, if_neg h2, h3, h4, h5]

theorem parseLine_eval_none (s : String)
    (h1 : ¬ ((pyStrip s.toList).isEmpty || startsLD06 (pyStrip s.toList)) = true)
    (h2 : ¬ (splitFields (pyStrip s.toList)).length ≠ 3)
    (h3 : pyFloat ((splitFields (pyStrip s.toList)).getD 0 []) = none) :
    parseLine s = none := by
  unfold parseLine
  rw [if_neg h1, if_neg h2, h3]

theorem processLineF_refines (v : LidarVisualiser) (s : String) (w : LidarVisualiser)
    (h : processLineF v s = Except.ok w) : processLine v s = w := by
  unfold processLineF at h
  cases hf : parseLineF s with
  | none =>
    rw [hf] at h
    injection h with h6
    unfold processLine
    rw [parseLine_none_of_parseLineF_none s hf]
    exact h6
  | some t =>
    obtain ⟨a, d, c⟩ := t
    rw [hf] at h
    obtain ⟨h1, h2, h3, h4, h5⟩ := parseLineF_fields s a d c hf
    cases a with
    | nan =>
      simp only [pyRound2] at h
      injection h with h6
      unfold processLine
      rw [parseLine_eval_none s h1 h2 (pyFloatF_nan _ h3)]
      exact h6
    | inf b =>
      simp only [pyRound2] at h
      exact absurd h (by simp)
    | finite q =>
      simp only [pyRound2] at h
      by_cases hb : overflowBound ≤ |q * 2|
      · rw [if_pos hb] at h
        exact absurd h (by simp)
      · rw [if_neg hb] at h
        unfold processLine
        rw [parseLine_eval s q d c h1 h2 (pyFloatF_finite _ _ h3) h4 h5]
        simp only [ingest, binOf]
        by_cases hd : 0 ≤ d ∧ d ≤ v.max_distance
        · have hred : (Except.ok
              { v with points := insertPoint v.points (((roundHalfEven (q * 2) : ℤ) : ℚ) / 2) (d, c)
                       point_count := v.point_count + 1 } :
              Except PyError LidarVisualiser) = Except.ok w := by
            rw [← h]
            simp [hd]
          injection hred with h6
          rw [if_pos hd]
          simpa using h6
        · have hred : (Except.ok v : Except PyError LidarVisualiser) = Except.ok w := by
            rw [← h]
            simp [hd]
          injection hred with h6
          rw [if_neg hd]
          exact h6

theorem stepF_stuck (lines : List String) :
    ∀ (v : LidarVisualiser) (e : PyError),
      lines.foldl stepF (v, some e) = (v, some e) := by
  induction lines with
  | nil => intro v e; rfl
  | cons s rest ih =>
    intro v e
    rw [List.foldl_cons]
    exact ih v e

theorem read_pointsF_refines (lines : List String) :
    ∀ (v w : LidarVisualiser), read_pointsF v lines = (w, none) → read_points v lines = w := by
  suffices haux : ∀ (l : List String) (v w : LidarVisualiser),
      l.foldl stepF (v, none) = (w, none) → l.foldl processLine v = w by
    intro v w h
    unfold read_pointsF at h
    unfold read_points
    by_cases hs : v.ser = true
    · rw [if_pos hs] at h ⊢
      exact haux lines v w h
    · rw [if_neg hs] at h ⊢
      simpa using congrArg Prod.fst h
  intro l
  induction l with
  | nil =>
    intro v w h
    simpa using congrArg Prod.fst h
  | cons s rest ih =>
    intro v w h
    rw [List.foldl_cons] at h ⊢
    cases hp : processLineF v s with
    | ok u =>
      have hstep : stepF (v, none) s = (u, none) := by
        simp [stepF, hp]
      rw [hstep] at h
      rw [processLineF_refines v s u hp]
      exact ih u w h
    | error e =>
      have hstep : stepF (v, none) s = (v, some e) := by
        simp [stepF, hp]
      rw [hstep, stepF_stuck rest v e] at h
      exact absurd (congrArg Prod.snd h) (by simp)

/-- C1: latest-wins aggregation.  After any read pass from the freshly
connected state, the point map has at most one entry per angle bin (its key
list has no duplicates), and the entry looked up for bin `b` is exactly the
`(distance, confidence)` pair of the most recently ingested accepted record
for that bin — unconditional overwrite, no merging or averaging. -/
theorem latest_wins_per_bin (lines : List String) (b : ℚ) :
    (((read_points initVis lines).points).map Prod.fst).Nodup ∧
    lookupPoint (read_points initVis lines).points b = acceptedFor 8000 lines b := by
  have hser : read_points initVis lines = lines.foldl processLine initVis := by
    simp [read_points, initVis]
  constructor
  · rw [hser]
    exact nodup_keys_foldl lines initVis (by simp [initVis])
  · rw [hser]
    have h := lookup_foldl lines initVis b
    have hmd : initVis.max_distance = 8000 := rfl
    rw [hmd] at h
    rw [h]
    cases ha : acceptedFor 8000 lines b with
    | some p => rfl
    | none => rfl

/-- C2 (code bug): the per-record error handling is not exception-free.
The line "inf,100,50" passes the emptiness, banner and field-count checks
and `float('inf')` succeeds, but `round(angle * 2)` at `visualise.py:64`
then raises OverflowError, which the `except ValueError` at line 70 does
not catch, so the exception escapes `read_points` and the rest of the pass
is never processed (first two conjuncts; likewise for the overflowing
literal "1e400").  By contrast `round` of nan raises ValueError, which is
caught, so "nan,100,50" is a silent rejection (third conjunct); ordinary
lines raise nothing (fourth conjunct); and an underscore integer literal
such as "1_0" is accepted by Python and stored (fifth conjunct). -/
theorem uncaught_overflow_crash :
    read_pointsF initVis ["inf,100,50", "0.2,1500,200"] =
      (initVis, some PyError.overflowError) ∧
    read_pointsF initVis ["1e400,100,50"] = (initVis, some PyError.overflowError) ∧
    read_pointsF initVis ["nan,100,50"] = (initVis, none) ∧
    (read_pointsF initVis ["0.2,1500,200"]).2 = none ∧
    lookupPoint (read_points initVis ["45.0,1_0,50"]).points 45 = some (10, 50) := by
  refine ⟨by decide, by decide, by decide, by decide, by decide⟩

/-- C3 counterexample: the claim "every key stored in the point map is a
multiple of 0.5 lying in [0, 360)" fails on the code: the record
"-10.0,100,50" parses, its distance 100 is in range, and `read_points`
stores it under the key -10.0 without any angle normalisation, so a stored
key is negative. -/
theorem bin_range_counterexample :
    lookupPoint (read_points initVis ["-10.0,100,50"]).points (-10) = some (100, 50) ∧
    ¬ (∀ k ∈ (read_points initVis ["-10.0,100,50"]).points.map Prod.fst,
        0 ≤ k ∧ k < 360) := by
  constructor
  · decide
  · decide

/-- C3 (amended): every key stored in the point map is an integer multiple
of 0.5; the code never normalises angles, so keys produced by raw angles
outside [-0.25, 359.75) lie outside [0, 360). -/
theorem stored_bins_half_integer (lines : List String) (k : ℚ)
    (hk : k ∈ (read_points initVis lines).points.map Prod.fst) :
    ∃ n : ℤ, k = (n : ℚ) / 2 := by
  have hser : read_points initVis lines = lines.foldl processLine initVis := by
    simp [read_points, initVis]
  rw [hser] at hk
  obtain ⟨q, hq, rfl⟩ := List.mem_map.mp hk
  refine points_invariant (fun q => ∃ n : ℤ, q.1 = (n : ℚ) / 2) lines initVis ?_ ?_ q hq
  · intro q2 hq2
    simp [initVis] at hq2
  · intro s2 hs2 b d c hr
    obtain ⟨⟨a, hb⟩, _, _⟩ := recordFor_shape _ _ _ _ _ hr
    exact ⟨roundHalfEven (a * 2), by rw [hb]; rfl⟩

/-- C3 witness: the line "0.2,1500,200" stores bin 0.0, which is 0/2. -/
theorem stored_bins_half_integer_witness :
    ((0 : ℚ) ∈ (read_points initVis ["0.2,1500,200"]).points.map Prod.fst) ∧
    ∃ n : ℤ, (0 : ℚ) = (n : ℚ) / 2 :=
  ⟨by decide, stored_bins_half_integer ["0.2,1500,200"] 0 (by decide)⟩

/-- C4 counterexample: the claim "the point map never exceeds 720 entries
regardless of record content" fails on the code: 721 accepted records at
the integer angles 0, 1, ..., 720 produce 721 distinct keys, because the
code never folds angles into [0, 360). -/
theorem size_bound_counterexample :
    720 < (ingestAll initVis (floodRecords 721)).points.length := by
  rw [ingestAll_flood]
  simp

/-- C4 (amended): the 720-entry bound holds for every input whose accepted
records all quantise into the 720 legal bins 0, 0.5, ..., 359.5 — the keys
are then distinct members of that fixed 720-element key space. -/
theorem size_bounded_on_legal_bins (lines : List String)
    (hl : ∀ s ∈ lines, ∀ b d c, recordFor 8000 s = some (b, d, c) → b ∈ legalBins) :
    (read_points initVis lines).points.length ≤ 720 := by
  have hser : read_points initVis lines = lines.foldl processLine initVis := by
    simp [read_points, initVis]
  rw [hser]
  have hnodup : (((lines.foldl processLine initVis).points).map Prod.fst).Nodup :=
    nodup_keys_foldl lines initVis (by simp [initVis])
  have hsub : ∀ k ∈ ((lines.foldl processLine initVis).points).map Prod.fst, k ∈ legalBins := by
    intro k hk
    obtain ⟨q, hq, rfl⟩ := List.mem_map.mp hk
    refine points_invariant (fun q => q.1 ∈ legalBins) lines initVis ?_ ?_ q hq
    · intro q2 hq2
      simp [initVis] at hq2
    · intro s2 hs2 b d c hr
      exact hl s2 hs2 b d c hr
  have h1 : ((lines.foldl processLine initVis).points).length =
      (((lines.foldl processLine initVis).points).map Prod.fst).length :=
    (List.length_map _ _).symm
  rw [h1, ← List.toFinset_card_of_nodup hnodup]
  have h3 : (((lines.foldl processLine initVis).points).map Prod.fst).toFinset ⊆
      legalBins.toFinset := by
    intro x hx
    rw [List.mem_toFinset] at hx ⊢
    exact hsub x hx
  calc (((lines.foldl processLine initVis).points).map Prod.fst).toFinset.card
      ≤ legalBins.toFinset.card := Finset.card_le_card h3
    _ ≤ legalBins.length := legalBins.toFinset_card_le
    _ = 720 := by simp [legalBins]

/-- C4 witness: a single in-range line keeps the map within the bound. -/
theorem size_bounded_on_legal_bins_witness :
    (read_points initVis ["0.2,1500,200"]).points.length ≤ 720 := by
  apply size_bounded_on_legal_bins
  intro s hs b d c hr
  rw [List.mem_singleton] at hs
  subst hs
  rw [show recordFor 8000 "0.2,1500,200" = some (0, 1500, 200) from by decide] at hr
  simp only [Option.some.injEq, Prod.mk.injEq] at hr
  obtain ⟨hb, _, _⟩ := hr
  rw [← hb]
  decide

/-- C5: distance range filtering.  A parsed record whose distance lies
outside [0, max_distance] is rejected by `ingest` with the state unchanged;
consequently, after any read pass from the fresh state every stored entry
has a distance within [0, 8000]. -/
theorem distance_filter (v : LidarVisualiser) (a : ℚ) (d c : ℤ) (lines : List String)
    (hd : ¬ (0 ≤ d ∧ d ≤ v.max_distance)) :
    ingest v a d c = v ∧
    ∀ k p, (k, p) ∈ (read_points initVis lines).points → 0 ≤ p.1 ∧ p.1 ≤ 8000 := by
  constructor
  · simp [ingest, hd]
  · intro k p hkp
    have hser : read_points initVis lines = lines.foldl processLine initVis := by
      simp [read_points, initVis]
    rw [hser] at hkp
    refine points_invariant (fun q => 0 ≤ q.2.1 ∧ q.2.1 ≤ 8000) lines initVis ?_ ?_ (k, p) hkp
    · intro q2 hq2
      simp [initVis] at hq2
    · intro s2 hs2 b d2 c2 hr
      obtain ⟨_, h1, h2⟩ := recordFor_shape _ _ _ _ _ hr
      exact ⟨h1, h2⟩

/-- C5 witness: distance 9000 with the default limit 8000 is rejected. -/
theorem distance_filter_witness : ingest initVis 45 9000 180 = initVis :=
  (distance_filter initVis 45 9000 180 [] (by decide)).1

/-- C6: snapshot idempotence and purity.  `get_polar_data` leaves the state
unchanged, and calling it twice with no intervening ingest yields the same
three sequences. -/
theorem snapshot_idempotent_pure (v : LidarVisualiser) :
    (get_polar_data v).2 = v ∧
    (get_polar_data ((get_polar_data v).2)).1 = (get_polar_data v).1 := by
  have h2 : (get_polar_data v).2 = v := by
    by_cases h : v.points.isEmpty <;> simp [get_polar_data, h]
  exact ⟨h2, by rw [h2]⟩

/-- C7: snapshot shape and conversion.  For a non-empty point map the
snapshot's three sequences all have one index per stored bin, and at each
index the angle is the radian conversion of that bin (stated both in the
coefficient-of-π representation and against `Real.pi`) while the distance
and confidence are that bin's stored measurement. -/
theorem snapshot_alignment (v : LidarVisualiser) (hne : v.points ≠ []) :
    (get_polar_data v).1.1.length = v.points.length ∧
    (get_polar_data v).1.2.1.length = v.points.length ∧
    (get_polar_data v).1.2.2.length = v.points.length ∧
    ∀ i (hi : i < v.points.length),
      (get_polar_data v).1.1.getD i 0 = radians (v.points.get ⟨i, hi⟩).1 ∧
      (((get_polar_data v).1.1.getD i 0 : ℚ) : ℝ) * Real.pi =
        (((v.points.get ⟨i, hi⟩).1 : ℚ) : ℝ) * Real.pi / 180 ∧
      (get_polar_data v).1.2.1.getD i 0 = (v.points.get ⟨i, hi⟩).2.1 ∧
      (get_polar_data v).1.2.2.getD i 0 = (v.points.get ⟨i, hi⟩).2.2 := by
  have hie : v.points.isEmpty = false := by
    cases hv : v.points with
    | nil => exact absurd hv hne
    | cons a t => rfl
  have hg : get_polar_data v =
      ((v.points.map fun p => radians p.1,
        v.points.map fun p => p.2.1,
        v.points.map fun p => p.2.2), v) := by
    simp [get_polar_data, hie]
  rw [hg]
  refine ⟨by simp, by simp, by simp, ?_⟩
  intro i hi
  have hi1 : i < (v.points.map fun p => radians p.1).length := by simpa using hi
  have hi2 : i < (v.points.map fun p => p.2.1).length := by simpa using hi
  have hi3 : i < (v.points.map fun p => p.2.2).length := by simpa using hi
  have e1 : (v.points.map fun p => radians p.1).getD i 0 = radians (v.points.get ⟨i, hi⟩).1 := by
    rw [List.getD_eq_getElem _ _ hi1]
    simp
  refine ⟨e1, ?_, ?_, ?_⟩
  · rw [e1]
    unfold radians
    push_cast
    ring
  · rw [List.getD_eq_getElem _ _ hi2]
    simp
  · rw [List.getD_eq_getElem _ _ hi3]
    simp

/-- C7 witness: after ingesting one record the angle sequence has the same
length as the point map. -/
theorem snapshot_alignment_witness :
    (get_polar_data (read_points initVis ["0.2,1500,200"])).1.1.length =
      (read_points initVis ["0.2,1500,200"]).points.length :=
  (snapshot_alignment (read_points initVis ["0.2,1500,200"]) (by decide)).1

/-- C8: empty-map boundary.  When the point map is empty, `get_polar_data`
returns three empty sequences (and the unchanged state) rather than
failing. -/
theorem snapshot_empty (v : LidarVisualiser) (h : v.points = []) :
    get_polar_data v = (([], [], []), v) := by
  simp [get_polar_data, h]

/-- C8 witness: the fresh state has an empty map and yields three empty
sequences. -/
theorem snapshot_empty_witness : get_polar_data initVis = (([], [], []), initVis) :=
  snapshot_empty initVis rfl

/-- C9: auto-scaling monotonicity.  One tick appended to any tick history
applies `autoScale` to the current limit; the limit changes only when the
snapshot's maximum distance exceeds it, in which case it becomes
`min(max_dist * 1.1, 8000)`; and the limit never decreases across any
sequence of ticks starting from the initial 4000. -/
theorem radial_limit_autoscale (snaps : List (List ℤ)) (ds : List ℤ) :
    rlimAfter (snaps ++ [ds]) = autoScale (rlimAfter snaps) ds ∧
    rlimAfter snaps ≤ rlimAfter (snaps ++ [ds]) ∧
    ((∀ d ∈ ds, (d : ℚ) ≤ rlimAfter snaps) → rlimAfter (snaps ++ [ds]) = rlimAfter snaps) ∧
    (∀ d0 ∈ ds, (∀ d ∈ ds, d ≤ d0) → rlimAfter snaps < (d0 : ℚ) →
      rlimAfter (snaps ++ [ds]) = min ((d0 : ℚ) * (11 / 10)) 8000) := by
  have happ : rlimAfter (snaps ++ [ds]) = autoScale (rlimAfter snaps) ds := by
    unfold rlimAfter
    rw [List.foldl_append]
    rfl
  refine ⟨happ, ?_, ?_, ?_⟩
  · rw [happ]
    exact le_autoScale _ _ (rlimAfter_le_8000 snaps) (rlimAfter_nonneg snaps)
  · intro hle
    rw [happ]
    rcases ds with _ | ⟨d, t⟩
    · rfl
    · simp only [autoScale]
      rw [if_neg (not_lt.mpr (hle _ (foldl_max_mem t d)))]
  · intro d0 hd0 hub hgt
    rw [happ]
    rcases ds with _ | ⟨d, t⟩
    · cases hd0
    · simp only [autoScale]
      have heq : t.foldl max d = d0 :=
        le_antisymm (hub _ (foldl_max_mem t d)) (foldl_max_ub t d d0 hd0)
      rw [heq, if_pos hgt]

/-- C9 witness: a 5000 mm maximum raises the initial 4000 limit to 5500. -/
theorem radial_limit_autoscale_witness : rlimAfter [[5000]] = 5500 := by
  have h := (radial_limit_autoscale [] [5000]).2.2.2 5000 (by decide) (by decide)
    (by norm_num [rlimAfter])
  rw [List.nil_append] at h
  rw [h]
  norm_num

/-- C10: no-connection no-op.  When no serial connection has been
established, `read_points` returns immediately and the whole state — point
map and lifetime counter included — is unchanged. -/
theorem no_connection_noop (v : LidarVisualiser) (lines : List String) (h : v.ser = false) :
    read_points v lines = v := by
  simp [read_points, h]

/-- C10 witness: a disconnected visualiser ignores a pending line. -/
theorem no_connection_noop_witness :
    read_points { ser := false, points := [], point_count := 0, max_distance := 8000 } ["1,2,3"]
      = { ser := false, points := [], point_count := 0, max_distance := 8000 } :=
  no_connection_noop _ _ rfl
